import Mathlib

/-!
# Verification of the Connect-Four rules engine (src/index.js)

Shallow embedding of the repository's single source file.  The JS board is a
6×7 array of `Cell` closures whose state is an integer token
(0 = empty, 1 = player one, 2 = player two); we embed the board as
`List (List Nat)` holding the cell values directly (row 0 = top row,
column 0 = leftmost column).

Mutation is embedded by explicit state passing: each operation returns the
new board.  JS exceptions (the `TypeError` raised by
`row[column].getValue()` when `column` is out of range, so `row[column]` is
`undefined`) are embedded as an explicit `typeError` result.
-/

namespace ConnectFour

/-- A board: rows of cell values.  `Cell()` in the source is a closure over an
integer `value` initialised to 0; we represent a cell by that value. -/
abbrev Board := List (List Nat)

/-- Value of the cell at row `r`, column `c`.  Out-of-range reads return 0;
every theorem restricts the indices so that this default is never hit. -/
def cellVal (b : Board) (r c : Nat) : Nat := (b.getD r []).getD c 0

/-- `GameBoard()` (src/index.js:7-21): rows = 6, columns = 7 are hard-coded
constants; the nested loops push a fresh `Cell()` (value 0) into every slot,
yielding the fixed 6×7 all-empty board.  The constructor takes no dimension
parameters and performs no validation. -/
def GameBoard : Board := List.replicate 6 (List.replicate 7 0)

/-- JS array read `row[column]` followed by `.getValue()`:
`row[column]` is `undefined` when `column` is negative or ≥ `row.length`,
and calling `.getValue()` on `undefined` throws a TypeError (`none`). -/
def jsAt (row : List Nat) (column : Int) : Option Nat :=
  if column < 0 then none else row[column.toNat]?

/-- The `availableCells` computation inside `dropToken` (src/index.js:34-36):
`board.filter((row) => row[column].getValue() === 0).map((row) => row[column])`.
Returns the list of (values of) the cells of `column` that are empty, scanning
rows top to bottom; `Except.error ()` embeds the TypeError thrown by the
filter callback when `row[column]` is `undefined`. -/
def availableCells : Board → Int → Except Unit (List Nat)
  | [], _ => Except.ok []
  | row :: rest, column =>
    match jsAt row column with
    | none => Except.error ()
    | some v =>
      match availableCells rest column with
      | Except.error e => Except.error e
      | Except.ok tail => Except.ok (if v = 0 then v :: tail else tail)

/-- How a `dropToken` call ends: the token was placed, the move was rejected
(the early `return` at src/index.js:60, a normal return), or a TypeError was
thrown (out-of-range column). -/
inductive DropStatus
  | placed
  | rejected
  | typeError
deriving DecidableEq

/-- `board[r][c].addToken(v)`: replace the value of cell `(r, c)`. -/
def setCell (b : Board) (r c v : Nat) : Board :=
  b.set r ((b.getD r []).set c v)

/-- `dropToken(column, player)` (src/index.js:29-65).  Computes
`availableCells`; if empty, the move is invalid and the function returns with
no state change; otherwise `lowestRow = availableCells.length - 1` and the
cell `board[lowestRow][column]` receives the player's token.  The second
component is the board after the call (unchanged unless a token was placed). -/
def dropToken (board : Board) (column : Int) (player : Nat) : DropStatus × Board :=
  match availableCells board column with
  | Except.error _ => (DropStatus.typeError, board)
  | Except.ok cells =>
    match cells with
    | [] => (DropStatus.rejected, board)
    | _ :: _ =>
      let lowestRow := cells.length - 1
      (DropStatus.placed, setCell board lowestRow column.toNat player)

/-- A player record (src/index.js:117-126): display name and token. -/
structure Player where
  name : String
  token : Nat
deriving DecidableEq

/-- The two player records built by `GameController`. -/
def makePlayers (playerOneName playerTwoName : String) : List Player :=
  [⟨playerOneName, 1⟩, ⟨playerTwoName, 2⟩]

/-- The mutable state owned by a `GameController` instance: the board, the
fixed player list, and which player is active.  `activePlayer` in the source
is a reference to one of the two player objects; reference identity is
embedded as the index into `players`. -/
structure GameState where
  board : Board
  players : List Player
  activeIndex : Nat
deriving DecidableEq

/-- `GameController(playerOneName, playerTwoName)` (src/index.js:111-133):
fresh `GameBoard`, the two players, and `activePlayer = players[0]`.
The JS defaults are `'Player One'` and `'Player Two'`. -/
def GameController (playerOneName playerTwoName : String) : GameState :=
  ⟨GameBoard, makePlayers playerOneName playerTwoName, 0⟩

/-- `GameController()` with its default arguments. -/
def initialGame : GameState := GameController "Player One" "Player Two"

/-- `getActivePlayer()` (src/index.js:133). -/
def getActivePlayer (s : GameState) : Player :=
  s.players.getD s.activeIndex ⟨"", 0⟩

/-- `switchPlayerTurn()` (src/index.js:130-132):
`activePlayer = activePlayer === players[0] ? players[1] : players[0]`.
Reference equality with `players[0]` holds exactly when the active index
is 0. -/
def switchPlayerTurn (s : GameState) : GameState :=
  ⟨s.board, s.players, if s.activeIndex = 0 then 1 else 0⟩

/-- The four direction vectors of `checkWin` (src/index.js:144-149):
horizontal, vertical, diagonal down-right, diagonal down-left. -/
def directions : List (Int × Int) := [(0, 1), (1, 0), (1, 1), (1, -1)]

/-- `checkWin(board)` (src/index.js:140-176), parameterised by the active
player's token (the source reads it from `getActivePlayer()`).  For every
cell holding the token and every direction, it counts how many of the 4
window positions `(r + dr*i, c + dc*i)`, `i = 0..3`, are in bounds and hold
the token, and reports a win when all 4 do. -/
def checkWin (board : Board) (token : Nat) : Bool :=
  (List.range board.length).any (fun r =>
    (List.range (board.headD []).length).any (fun c =>
      decide (cellVal board r c = token) &&
      directions.any (fun d =>
        decide (4 ≤ (List.range 4).countP (fun (i : Nat) =>
          decide (0 ≤ (r : Int) + d.1 * (i : Int)) &&
          decide ((r : Int) + d.1 * (i : Int) < (board.length : Int)) &&
          decide (0 ≤ (c : Int) + d.2 * (i : Int)) &&
          decide ((c : Int) + d.2 * (i : Int) < ((board.headD []).length : Int)) &&
          decide (cellVal board ((r : Int) + d.1 * (i : Int)).toNat
            ((c : Int) + d.2 * (i : Int)).toNat = token))))))

/-- `checkTie(board)` (src/index.js:178-194): count the empty cells over all
rows and columns; tie iff the count is 0. -/
def checkTie (board : Board) : Bool :=
  decide (((List.range board.length).map (fun r =>
    (List.range (board.headD []).length).countP
      (fun c => decide (cellVal board r c = 0)))).sum = 0)

/-- What a `playRound` call reports: the win message, the tie message, a
normal continuation (player switched), or a crash (the TypeError from
`dropToken` propagating out of `playRound`). -/
inductive RoundOutcome
  | wonRound
  | tieRound
  | continuedRound
  | crashedRound
deriving DecidableEq

/-- `playRound(column)` (src/index.js:196-217).  Drops a token for the active
player — the result of `dropToken` is NOT inspected — then checks win, then
tie, on the current board; only when neither holds does it switch the
player.  A TypeError in `dropToken` aborts the round with all state
unchanged. -/
def playRound (s : GameState) (column : Int) : RoundOutcome × GameState :=
  let token := (getActivePlayer s).token
  match dropToken s.board column token with
  | (DropStatus.typeError, _) => (RoundOutcome.crashedRound, s)
  | (_, b2) =>
    if checkWin b2 token then
      (RoundOutcome.wonRound, ⟨b2, s.players, s.activeIndex⟩)
    else if checkTie b2 then
      (RoundOutcome.tieRound, ⟨b2, s.players, s.activeIndex⟩)
    else
      (RoundOutcome.continuedRound, switchPlayerTurn ⟨b2, s.players, s.activeIndex⟩)

/-- Board states reachable from the fresh `GameBoard` by `dropToken` calls
with the tokens the program actually drops (1 and 2). -/
inductive Reachable : Board → Prop
  | init : Reachable GameBoard
  | step (b : Board) (col : Int) (p : Nat) (b2 : Board) :
      Reachable b → (p = 1 ∨ p = 2) →
      dropToken b col p = (DropStatus.placed, b2) → Reachable b2

/-- Match states reachable through the public interface: a freshly
constructed controller followed by any sequence of `playRound` calls. -/
inductive ReachableG : GameState → Prop
  | init (playerOneName playerTwoName : String) :
      ReachableG (GameController playerOneName playerTwoName)
  | step (s : GameState) (col : Int) :
      ReachableG s → ReachableG (playRound s col).2

/-- Iterated drops into one column, one per listed player token; `none` as
soon as a drop is not accepted. -/
def dropSeq (b : Board) (c : Int) : List Nat → Option Board
  | [] => some b
  | p :: ps =>
    match dropToken b c p with
    | (DropStatus.placed, b2) => dropSeq b2 c ps
    | _ => none

/-! ### List access helper lemmas -/

lemma getD_set_self {α : Type} (l : List α) (i : Nat) (x d : α) (h : i < l.length) :
    (l.set i x).getD i d = x := by
  simp [List.getD_eq_getElem?_getD, List.getElem?_set_self h]

lemma getD_set_ne {α : Type} (l : List α) (i r : Nat) (x d : α) (h : r ≠ i) :
    (l.set i x).getD r d = l.getD r d := by
  simp [List.getD_eq_getElem?_getD, List.getElem?_set_ne (Ne.symm h)]

lemma set_getD_self {α : Type} (l : List α) (n : Nat) (d : α) (h : n < l.length) :
    l.set n (l.getD n d) = l := by
  apply List.ext_getElem?
  intro m
  rcases eq_or_ne m n with rfl | hm
  · rw [List.getElem?_set_self h, List.getD_eq_getElem _ _ h, List.getElem?_eq_getElem h]
  · rw [List.getElem?_set_ne (Ne.symm hm)]

/-! ### The column view of a board -/

/-- The values of column `c`, top to bottom. -/
def colOf (b : Board) (c : Nat) : List Nat := b.map (fun row => row.getD c 0)

lemma length_colOf (b : Board) (c : Nat) : (colOf b c).length = b.length :=
  List.length_map b _

lemma cellVal_eq_colOf : ∀ (b : Board) (r c : Nat),
    cellVal b r c = (colOf b c).getD r 0
  | [], r, _ => by cases r <;> rfl
  | _ :: _, 0, _ => rfl
  | _ :: rest, r + 1, c => cellVal_eq_colOf rest r c

/-- Number of empty cells in a column. -/
def emptyCountCol (col : List Nat) : Nat := col.countP (fun v => decide (v = 0))

/-- Number of empty cells of column `c`: the length of the list that
`availableCells` returns on an in-range column. -/
def eCount (b : Board) (c : Nat) : Nat := emptyCountCol (colOf b c)

lemma eCount_eq_countP (b : Board) (c : Nat) :
    eCount b c = b.countP (fun row => decide (row.getD c 0 = 0)) := by
  unfold eCount emptyCountCol colOf
  rw [List.countP_map]
  rfl

/-- Gravity shape of one column: the empty cells are exactly the topmost
`emptyCountCol` positions, i.e. the occupied cells form a contiguous block
anchored at the bottom. -/
def colGood (col : List Nat) : Prop :=
  ∀ r, r < col.length → (col.getD r 0 = 0 ↔ r < emptyCountCol col)

/-- Shape of every board the program builds: 6 rows of 7 cells each. -/
def Shape (b : Board) : Prop := b.length = 6 ∧ ∀ row ∈ b, row.length = 7

/-- The board invariant: right shape and every column gravity-shaped. -/
def Inv (b : Board) : Prop := Shape b ∧ ∀ c, c < 7 → colGood (colOf b c)

/-! ### Characterising `availableCells` and `dropToken` -/

lemma availableCells_ok : ∀ (b : Board) (column : Int),
    0 ≤ column → (∀ row ∈ b, column.toNat < row.length) →
    ∃ cells, availableCells b column = Except.ok cells ∧
      cells.length = b.countP (fun row => decide (row.getD column.toNat 0 = 0))
  | [], _, _, _ => ⟨[], rfl, rfl⟩
  | row :: rest, column, h0, hlt => by
    have hrow : column.toNat < row.length := hlt row (List.mem_cons_self row rest)
    have hjs : jsAt row column = some (row.getD column.toNat 0) := by
      unfold jsAt
      rw [if_neg (Int.not_lt.mpr h0), List.getElem?_eq_getElem hrow,
        List.getD_eq_getElem _ _ hrow]
    obtain ⟨tail, htail, hlen⟩ :=
      availableCells_ok rest column h0 (fun r hr => hlt r (List.mem_cons_of_mem _ hr))
    by_cases hz : row.getD column.toNat 0 = 0
    · refine ⟨0 :: tail, ?_, ?_⟩
      · simp only [availableCells, hjs, htail]
        rw [if_pos hz, hz]
      · have hp : decide (row.getD column.toNat 0 = 0) = true := decide_eq_true hz
        rw [List.countP_cons, hp, List.length_cons, hlen]
        rfl
    · refine ⟨tail, ?_, ?_⟩
      · simp only [availableCells, hjs, htail]
        rw [if_neg hz]
      · have hp : decide (row.getD column.toNat 0 = 0) = false :=
          decide_eq_false hz
        rw [List.countP_cons, hp, hlen]
        rfl

lemma availableCells_error_head (row : List Nat) (rest : Board) (col : Int)
    (h : col < 0 ∨ (row.length : Int) ≤ col) :
    availableCells (row :: rest) col = Except.error () := by
  have hjs : jsAt row col = none := by
    unfold jsAt
    rcases h with h | h
    · rw [if_pos h]
    · rw [if_neg (by omega)]
      exact List.getElem?_eq_none (by omega)
  simp only [availableCells, hjs]

lemma dropToken_rejected_of_count_zero (b : Board) (col : Int) (p : Nat)
    (h0 : 0 ≤ col) (hlt : ∀ row ∈ b, col.toNat < row.length)
    (hcnt : b.countP (fun row => decide (row.getD col.toNat 0 = 0)) = 0) :
    dropToken b col p = (DropStatus.rejected, b) := by
  obtain ⟨cells, hc, hlen⟩ := availableCells_ok b col h0 hlt
  have : cells = [] := List.length_eq_zero.mp (by omega)
  subst this
  unfold dropToken
  rw [hc]

lemma dropToken_placed_of_count_succ (b : Board) (col : Int) (p n : Nat)
    (h0 : 0 ≤ col) (hlt : ∀ row ∈ b, col.toNat < row.length)
    (hcnt : b.countP (fun row => decide (row.getD col.toNat 0 = 0)) = n + 1) :
    dropToken b col p = (DropStatus.placed, setCell b n col.toNat p) := by
  obtain ⟨cells, hc, hlen⟩ := availableCells_ok b col h0 hlt
  obtain ⟨hd, tl, rfl⟩ : ∃ hd tl, cells = hd :: tl := by
    cases cells with
    | nil => rw [hcnt] at hlen; exact absurd hlen.symm (Nat.succ_ne_zero n)
    | cons hd tl => exact ⟨hd, tl, rfl⟩
  unfold dropToken
  rw [hc]
  have hlow : (hd :: tl).length - 1 = n := by rw [hlen, hcnt]; rfl
  simp only [hlow]

lemma dropToken_out_of_range (b : Board) (col : Int) (p : Nat)
    (hb : b ≠ []) (hout : col < 0 ∨ ((b.headD []).length : Int) ≤ col) :
    dropToken b col p = (DropStatus.typeError, b) := by
  obtain ⟨row, rest, rfl⟩ : ∃ row rest, b = row :: rest := by
    cases b with
    | nil => exact absurd rfl hb
    | cons row rest => exact ⟨row, rest, rfl⟩
  unfold dropToken
  rw [availableCells_error_head row rest col (by simpa using hout)]

/-! ### Effect of `setCell` on cells, columns and shape -/

lemma cellVal_setCell_self (b : Board) (r c v : Nat) (hr : r < b.length)
    (hc : c < (b.getD r []).length) :
    cellVal (setCell b r c v) r c = v := by
  unfold cellVal setCell
  rw [getD_set_self _ _ _ _ (by simpa using hr)]
  exact getD_set_self _ _ _ _ hc

lemma cellVal_setCell_ne (b : Board) (r c v r2 c2 : Nat)
    (h : r2 ≠ r ∨ c2 ≠ c) :
    cellVal (setCell b r c v) r2 c2 = cellVal b r2 c2 := by
  unfold cellVal setCell
  rcases eq_or_ne r2 r with rfl | hne
  · rcases h with h | h
    · exact absurd rfl h
    · rcases Nat.lt_or_ge r2 b.length with hr | hr
      · rw [getD_set_self _ _ _ _ (by simpa using hr), getD_set_ne _ _ _ _ _ h]
      · rw [List.set_eq_of_length_le (by simpa using hr)]
  · rw [getD_set_ne _ _ _ _ _ hne]

lemma shape_setCell (b : Board) (r c v : Nat) (hs : Shape b) (hr : r < b.length) :
    Shape (setCell b r c v) := by
  obtain ⟨hlen, hrows⟩ := hs
  refine ⟨by simpa [setCell] using hlen, ?_⟩
  intro row hrow
  rcases List.mem_or_eq_of_mem_set hrow with h | h
  · exact hrows row h
  · subst h
    rw [List.length_set]
    exact hrows _ (by rw [List.getD_eq_getElem _ _ hr]; exact List.getElem_mem hr)

lemma colOf_setCell_same (b : Board) (r c v : Nat) (_hr : r < b.length)
    (hc : c < (b.getD r []).length) :
    colOf (setCell b r c v) c = (colOf b c).set r v := by
  unfold colOf setCell
  rw [List.map_set]
  congr 1
  exact getD_set_self _ _ _ _ hc

lemma colOf_setCell_other (b : Board) (r c c2 v : Nat) (hr : r < b.length)
    (hcc : c2 ≠ c) :
    colOf (setCell b r c v) c2 = colOf b c2 := by
  unfold colOf setCell
  rw [List.map_set, getD_set_ne _ _ _ _ _ hcc]
  have hval : (b.getD r []).getD c2 0 =
      (b.map (fun row => row.getD c2 0)).getD r 0 := cellVal_eq_colOf b r c2
  rw [hval]
  exact set_getD_self _ _ _ (by simpa using hr)

/-! ### Column gravity lemmas -/

lemma emptyCountCol_le (col : List Nat) : emptyCountCol col ≤ col.length :=
  List.countP_le_length _

lemma emptyCountCol_of_char : ∀ (col : List Nat) (m : Nat), m ≤ col.length →
    (∀ r, r < col.length → (col.getD r 0 = 0 ↔ r < m)) →
    emptyCountCol col = m
  | [], m, hm, _ => by
    have : m = 0 := Nat.le_zero.mp hm
    subst this
    rfl
  | x :: xs, m, hm, hchar => by
    have h0 := hchar 0 (by simp)
    match m with
    | 0 =>
      have hx : ¬x = 0 := fun hx => by
        have := h0.mp (by simpa using hx)
        omega
      have htail : emptyCountCol xs = 0 := by
        apply emptyCountCol_of_char xs 0 (Nat.zero_le _)
        intro r hr
        constructor
        · intro hz
          have := (hchar (r + 1) (by simpa using Nat.succ_lt_succ hr)).mp
            (by simpa using hz)
          omega
        · omega
      unfold emptyCountCol at htail ⊢
      rw [List.countP_cons, htail, decide_eq_false hx]
      rfl
    | m' + 1 =>
      have hx : x = 0 := by
        have := h0.mpr (Nat.succ_pos m')
        simpa using this
      have htail : emptyCountCol xs = m' := by
        apply emptyCountCol_of_char xs m' (by simpa using Nat.le_of_succ_le_succ hm)
        intro r hr
        have := hchar (r + 1) (by simpa using Nat.succ_lt_succ hr)
        simp only [List.getD_cons_succ] at this
        rw [this]
        omega
      unfold emptyCountCol at htail ⊢
      rw [List.countP_cons, htail, decide_eq_true hx]
      rfl

lemma colGood_set (col : List Nat) (n p : Nat)
    (hg : colGood col) (hcnt : emptyCountCol col = n + 1) (hp : p ≠ 0) :
    colGood (col.set n p) ∧ emptyCountCol (col.set n p) = n ∧
      col.getD n 0 = 0 ∧
      (∀ r, n < r → r < col.length → col.getD r 0 ≠ 0) := by
  have hn : n < col.length := by
    have := emptyCountCol_le col
    omega
  have hempty : col.getD n 0 = 0 := (hg n hn).mpr (by omega)
  have hbelow : ∀ r, n < r → r < col.length → col.getD r 0 ≠ 0 := by
    intro r h1 h2 hz
    have := (hg r h2).mp hz
    omega
  have hchar : ∀ r, r < (col.set n p).length → ((col.set n p).getD r 0 = 0 ↔ r < n) := by
    intro r hr
    rw [List.length_set] at hr
    rcases eq_or_ne r n with rfl | hne
    · rw [getD_set_self _ _ _ _ hn]
      constructor
      · intro h; exact absurd h hp
      · omega
    · rw [getD_set_ne _ _ _ _ _ hne]
      rw [hg r hr, hcnt]
      omega
  have hcnt2 : emptyCountCol (col.set n p) = n :=
    emptyCountCol_of_char _ n (by rw [List.length_set]; omega) hchar
  refine ⟨?_, hcnt2, hempty, hbelow⟩
  intro r hr
  rw [hcnt2]
  exact hchar r hr

/-! ### The drop preserves the invariant -/

lemma inv_setCell (b : Board) (c n p : Nat) (hinv : Inv b) (hc : c < 7)
    (hcnt : eCount b c = n + 1) (hp : p ≠ 0) :
    Inv (setCell b n c p) ∧ eCount (setCell b n c p) c = n := by
  obtain ⟨⟨hlen, hrows⟩, hcols⟩ := hinv
  have hg := hcols c hc
  have hn6 : n < 6 := by
    have h1 := emptyCountCol_le (colOf b c)
    rw [length_colOf, hlen] at h1
    unfold eCount at hcnt
    omega
  have hnb : n < b.length := by omega
  have hrowlen : (b.getD n []).length = 7 := by
    rw [List.getD_eq_getElem _ _ hnb]
    exact hrows _ (List.getElem_mem hnb)
  have hcrow : c < (b.getD n []).length := by omega
  have hsame := colOf_setCell_same b n c p hnb hcrow
  obtain ⟨hgood2, hcnt2, _, _⟩ :=
    colGood_set (colOf b c) n p hg hcnt hp
  refine ⟨⟨shape_setCell b n c p ⟨hlen, hrows⟩ hnb, ?_⟩, ?_⟩
  · intro c2 hc2
    rcases eq_or_ne c2 c with rfl | hne
    · rw [hsame]
      exact hgood2
    · rw [colOf_setCell_other b n c c2 p hnb hne]
      exact hcols c2 hc2
  · unfold eCount
    rw [hsame]
    exact hcnt2

lemma dropToken_placed_inversion (b : Board) (col : Int) (p : Nat) (b2 : Board)
    (hs : Shape b) (hdrop : dropToken b col p = (DropStatus.placed, b2)) :
    0 ≤ col ∧ col.toNat < 7 ∧ eCount b col.toNat ≠ 0 := by
  obtain ⟨hlen, hrows⟩ := hs
  obtain ⟨row, rest, hb⟩ : ∃ row rest, b = row :: rest := by
    cases b with
    | nil => simp at hlen
    | cons row rest => exact ⟨row, rest, rfl⟩
  have hrow7 : row.length = 7 := hrows row (by rw [hb]; exact List.mem_cons_self row rest)
  by_cases h0 : 0 ≤ col
  · by_cases h7 : col.toNat < 7
    · refine ⟨h0, h7, ?_⟩
      intro hz
      rw [eCount_eq_countP] at hz
      have := dropToken_rejected_of_count_zero b col p h0
        (fun r hr => by rw [hrows r hr]; exact h7) hz
      rw [this] at hdrop
      simp at hdrop
    · have : dropToken b col p = (DropStatus.typeError, b) := by
        apply dropToken_out_of_range b col p (by rw [hb]; simp)
        right
        rw [hb]
        simp only [List.headD_cons]
        omega
      rw [this] at hdrop
      simp at hdrop
  · have : dropToken b col p = (DropStatus.typeError, b) := by
      apply dropToken_out_of_range b col p (by rw [hb]; simp)
      left
      omega
    rw [this] at hdrop
    simp at hdrop

lemma dropToken_placed_master (b : Board) (col : Int) (p : Nat)
    (hinv : Inv b) (h0 : 0 ≤ col) (h7 : col.toNat < 7)
    (hne : eCount b col.toNat ≠ 0) :
    ∃ n, eCount b col.toNat = n + 1 ∧ n < 6 ∧
      dropToken b col p = (DropStatus.placed, setCell b n col.toNat p) ∧
      cellVal b n col.toNat = 0 ∧
      (∀ r, n < r → r < 6 → cellVal b r col.toNat ≠ 0) := by
  obtain ⟨⟨hlen, hrows⟩, hcols⟩ := hinv
  have hg := hcols col.toNat h7
  obtain ⟨n, hcnt⟩ : ∃ n, eCount b col.toNat = n + 1 := by
    cases h : eCount b col.toNat with
    | zero => exact absurd h hne
    | succ n => exact ⟨n, rfl⟩
  have hn6 : n < 6 := by
    have h1 := emptyCountCol_le (colOf b col.toNat)
    rw [length_colOf, hlen] at h1
    unfold eCount at hcnt
    omega
  have hcollen : (colOf b col.toNat).length = 6 := by rw [length_colOf, hlen]
  refine ⟨n, hcnt, hn6, ?_, ?_, ?_⟩
  · apply dropToken_placed_of_count_succ b col p n h0
      (fun r hr => by rw [hrows r hr]; exact h7)
    rw [← eCount_eq_countP]
    exact hcnt
  · rw [cellVal_eq_colOf]
    exact (hg n (by omega)).mpr (by unfold eCount at hcnt; omega)
  · intro r h1 h2 hz
    rw [cellVal_eq_colOf] at hz
    have := (hg r (by omega)).mp hz
    unfold eCount at hcnt
    omega

/-- Every reachable board satisfies the shape and gravity invariant. -/
lemma reachable_inv (b : Board) (hb : Reachable b) : Inv b := by
  induction hb with
  | init =>
    unfold Inv Shape colGood
    exact ⟨⟨rfl, by decide⟩, by decide⟩
  | step b col p b2 hreach hp hdrop ih =>
    obtain ⟨h0, h7, hne⟩ := dropToken_placed_inversion b col p b2 ih.1 hdrop
    obtain ⟨n, hcnt, hn6, hdrop2, hcell, hbelow⟩ :=
      dropToken_placed_master b col p ih h0 h7 hne
    rw [hdrop2] at hdrop
    have hb2 : b2 = setCell b n col.toNat p := by
      have := congrArg Prod.snd hdrop
      exact this.symm
    subst hb2
    exact (inv_setCell b col.toNat n p ih h7 hcnt (by rcases hp with rfl | rfl <;> simp)).1

/-- Iterated accepted drops into one in-range column: each drop lowers the
empty count by one and keeps the invariant. -/
lemma dropSeq_master : ∀ (ps : List Nat) (b : Board) (c : Int),
    Inv b → 0 ≤ c → c.toNat < 7 → (∀ q ∈ ps, q ≠ 0) →
    ps.length ≤ eCount b c.toNat →
    ∃ b2, dropSeq b c ps = some b2 ∧ Inv b2 ∧
      eCount b2 c.toNat = eCount b c.toNat - ps.length
  | [], b, c, hinv, _, _, _, _ => ⟨b, rfl, hinv, by simp⟩
  | q :: ps, b, c, hinv, h0, h7, hq, hle => by
    have hne : eCount b c.toNat ≠ 0 := by
      have := List.length_cons q ps ▸ hle
      omega
    obtain ⟨n, hcnt, hn6, hdrop2, _, _⟩ :=
      dropToken_placed_master b c q hinv h0 h7 hne
    have hq0 : q ≠ 0 := hq q (List.mem_cons_self q ps)
    obtain ⟨hinv2, hcnt2⟩ := inv_setCell b c.toNat n q hinv h7 hcnt hq0
    have hle2 : ps.length ≤ eCount (setCell b n c.toNat q) c.toNat := by
      rw [hcnt2]
      have := List.length_cons q ps ▸ hle
      omega
    obtain ⟨b2, hseq, hinv3, hcnt3⟩ :=
      dropSeq_master ps (setCell b n c.toNat q) c hinv2 h0 h7
        (fun r hr => hq r (List.mem_cons_of_mem _ hr)) hle2
    refine ⟨b2, ?_, hinv3, ?_⟩
    · unfold dropSeq
      rw [hdrop2]
      exact hseq
    · rw [hcnt3, hcnt2, hcnt]
      simp only [List.length_cons]
      omega

/-! ### Win detection: specification predicate and equivalence -/

/-- The specification's reading of a win: the grid contains four consecutive
cells holding `token` along one of the four directions, starting from a cell
holding the token.  Bounds are the ones the source uses: row index below
the number of rows, column index below the length of the first row. -/
def hasFourInARow (board : Board) (token : Nat) : Prop :=
  ∃ r c : Nat, ∃ d : Int × Int, d ∈ directions ∧
    r < board.length ∧ c < (board.headD []).length ∧
    cellVal board r c = token ∧
    ∀ i : Nat, i < 4 →
      0 ≤ (r : Int) + d.1 * (i : Int) ∧
      (r : Int) + d.1 * (i : Int) < (board.length : Int) ∧
      0 ≤ (c : Int) + d.2 * (i : Int) ∧
      (c : Int) + d.2 * (i : Int) < ((board.headD []).length : Int) ∧
      cellVal board ((r : Int) + d.1 * (i : Int)).toNat
        ((c : Int) + d.2 * (i : Int)).toNat = token

/-- A count of at least 4 over a 4-element window means every window
position matched: the source's `count >= 4` test demands all four steps. -/
lemma countP_range_four (q : Nat → Bool) :
    4 ≤ (List.range 4).countP q ↔ ∀ i, i < 4 → q i = true := by
  constructor
  · intro h i hi
    have hle : (List.range 4).countP q ≤ (List.range 4).length :=
      List.countP_le_length q
    rw [List.length_range] at hle
    have heq : (List.range 4).countP q = (List.range 4).length := by
      rw [List.length_range]; omega
    exact List.countP_eq_length.mp heq i (List.mem_range.mpr hi)
  · intro h
    have heq : (List.range 4).countP q = (List.range 4).length :=
      List.countP_eq_length.mpr (fun i hi => h i (List.mem_range.mp hi))
    rw [heq, List.length_range]

lemma checkWin_eq_true_iff (board : Board) (token : Nat) :
    checkWin board token = true ↔ hasFourInARow board token := by
  unfold checkWin hasFourInARow
  simp only [List.any_eq_true, List.mem_range, Bool.and_eq_true, decide_eq_true_eq,
    countP_range_four, and_assoc]
  constructor
  · rintro ⟨r, hr, c, hc, ⟨hcell, d, hd, hall⟩⟩
    exact ⟨r, c, d, hd, hr, hc, hcell, hall⟩
  · rintro ⟨r, c, d, hd, hr, hc, hcell, hall⟩
    exact ⟨r, hr, c, hc, hcell, d, hd, hall⟩

/-! ### Tie detection helpers -/

lemma sum_eq_zero_nat : ∀ l : List Nat, l.sum = 0 ↔ ∀ x ∈ l, x = 0
  | [] => by simp
  | x :: xs => by
    rw [List.sum_cons]
    constructor
    · intro h y hy
      rcases List.mem_cons.mp hy with rfl | hy2
      · omega
      · exact (sum_eq_zero_nat xs).mp (by omega) y hy2
    · intro h
      have hx := h x (List.mem_cons_self x xs)
      have hxs := (sum_eq_zero_nat xs).mpr (fun y hy => h y (List.mem_cons_of_mem _ hy))
      omega

lemma checkTie_eq_true_iff (board : Board) :
    checkTie board = true ↔
      ∀ r, r < board.length → ∀ c, c < (board.headD []).length →
        cellVal board r c ≠ 0 := by
  unfold checkTie
  rw [decide_eq_true_eq, sum_eq_zero_nat]
  constructor
  · intro h r hr c hc hz
    have hcnt := h _ (List.mem_map_of_mem _ (List.mem_range.mpr hr))
    rw [List.countP_eq_zero] at hcnt
    exact hcnt c (List.mem_range.mpr hc) (by simpa using hz)
  · intro h x hx
    obtain ⟨r, hr, rfl⟩ := List.mem_map.mp hx
    rw [List.countP_eq_zero]
    intro c hc
    simp only [decide_eq_true_eq]
    exact h r (List.mem_range.mp hr) c (List.mem_range.mp hc)

/-! ### Match-state invariant -/

lemma inv_gameBoard : Inv GameBoard := by
  unfold Inv Shape colGood
  exact ⟨⟨rfl, by decide⟩, by decide⟩

/-- Every cell value is one of the three tokens 0, 1, 2. -/
def ValOk (b : Board) : Prop :=
  ∀ r, r < 6 → ∀ c, c < 7 →
    cellVal b r c = 0 ∨ cellVal b r c = 1 ∨ cellVal b r c = 2

/-- Invariant of a controller state: board invariant, token-valued cells,
active index 0 or 1, and the original two-player list. -/
def InvG (s : GameState) : Prop :=
  Inv s.board ∧ ValOk s.board ∧ (s.activeIndex = 0 ∨ s.activeIndex = 1) ∧
    ∃ n1 n2, s.players = makePlayers n1 n2

lemma token_cases (s : GameState) (hG : InvG s) :
    (getActivePlayer s).token = 1 ∨ (getActivePlayer s).token = 2 := by
  obtain ⟨_, _, hidx, n1, n2, hpl⟩ := hG
  unfold getActivePlayer
  rw [hpl]
  rcases hidx with h | h <;> rw [h]
  · exact Or.inl rfl
  · exact Or.inr rfl

lemma dropToken_snd_of_not_placed (b : Board) (col : Int) (p : Nat)
    (h : (dropToken b col p).1 ≠ DropStatus.placed) : (dropToken b col p).2 = b := by
  unfold dropToken at h ⊢
  cases hav : availableCells b col with
  | error e => rfl
  | ok cells =>
    cases cells with
    | nil => rfl
    | cons hd tl =>
      rw [hav] at h
      exact absurd rfl h

lemma cellVal_setCell_self6 (b : Board) (n c v : Nat) (hs : Shape b)
    (hn : n < 6) (hc : c < 7) :
    cellVal (setCell b n c v) n c = v := by
  obtain ⟨hlen, hrows⟩ := hs
  have hnb : n < b.length := by omega
  apply cellVal_setCell_self b n c v hnb
  rw [List.getD_eq_getElem _ _ hnb, hrows _ (List.getElem_mem hnb)]
  omega

/-- One `playRound` call preserves the state invariant and never changes an
already-occupied cell. -/
lemma playRound_preserves (s : GameState) (col : Int) (hG : InvG s) :
    InvG (playRound s col).2 ∧
      (∀ r c, r < 6 → c < 7 → cellVal s.board r c ≠ 0 →
        cellVal (playRound s col).2.board r c = cellVal s.board r c) := by
  obtain ⟨hinv, hval, hidx, hplayers⟩ := hG
  have ht := token_cases s ⟨hinv, hval, hidx, hplayers⟩
  rcases hdt : dropToken s.board col (getActivePlayer s).token with ⟨st, b2⟩
  cases st with
  | typeError =>
    have hred : playRound s col = (RoundOutcome.crashedRound, s) := by
      simp only [playRound]
      rw [hdt]
    rw [hred]
    exact ⟨⟨hinv, hval, hidx, hplayers⟩, fun r c _ _ _ => rfl⟩
  | rejected =>
    have hb2 : b2 = s.board := by
      have h2 := dropToken_snd_of_not_placed s.board col (getActivePlayer s).token
        (by rw [hdt]; exact fun h => DropStatus.noConfusion h)
      rw [hdt] at h2
      exact h2
    rw [hb2] at hdt
    have hred : playRound s col =
        (if checkWin s.board (getActivePlayer s).token then
          (RoundOutcome.wonRound, ⟨s.board, s.players, s.activeIndex⟩)
        else if checkTie s.board then
          (RoundOutcome.tieRound, ⟨s.board, s.players, s.activeIndex⟩)
        else
          (RoundOutcome.continuedRound,
            switchPlayerTurn ⟨s.board, s.players, s.activeIndex⟩)) := by
      simp only [playRound]
      rw [hdt]
    rw [hred]
    split_ifs with hw htie
    · exact ⟨⟨hinv, hval, hidx, hplayers⟩, fun r c _ _ _ => rfl⟩
    · exact ⟨⟨hinv, hval, hidx, hplayers⟩, fun r c _ _ _ => rfl⟩
    · refine ⟨⟨hinv, hval, ?_, hplayers⟩, fun r c _ _ _ => rfl⟩
      unfold switchPlayerTurn
      rcases hidx with h | h <;> simp [h]
  | placed =>
    obtain ⟨h0, h7, hne⟩ :=
      dropToken_placed_inversion s.board col (getActivePlayer s).token b2 hinv.1 hdt
    obtain ⟨n, hcnt, hn6, hdrop2, hcell0, _⟩ :=
      dropToken_placed_master s.board col (getActivePlayer s).token hinv h0 h7 hne
    have hb2 : b2 = setCell s.board n col.toNat (getActivePlayer s).token :=
      congrArg Prod.snd (hdt.symm.trans hdrop2)
    have ht0 : (getActivePlayer s).token ≠ 0 := by
      rcases ht with h | h <;> rw [h] <;> simp
    obtain ⟨hinv2, _⟩ :=
      inv_setCell s.board col.toNat n (getActivePlayer s).token hinv h7 hcnt ht0
    rw [← hb2] at hinv2
    have hval2 : ValOk b2 := by
      intro r hr c hc
      rw [hb2]
      by_cases hrc : r = n ∧ c = col.toNat
      · obtain ⟨rfl, rfl⟩ := hrc
        rw [cellVal_setCell_self6 s.board r col.toNat _ hinv.1 hr h7]
        rcases ht with h | h <;> rw [h]
        · exact Or.inr (Or.inl rfl)
        · exact Or.inr (Or.inr rfl)
      · rw [cellVal_setCell_ne s.board n col.toNat _ r c (by tauto)]
        exact hval r hr c hc
    have hframe : ∀ r c, r < 6 → c < 7 → cellVal s.board r c ≠ 0 →
        cellVal b2 r c = cellVal s.board r c := by
      intro r c hr hc hnz
      rw [hb2]
      by_cases hrc : r = n ∧ c = col.toNat
      · obtain ⟨rfl, rfl⟩ := hrc
        exact absurd hcell0 hnz
      · exact cellVal_setCell_ne s.board n col.toNat _ r c (by tauto)
    have hred : playRound s col =
        (if checkWin b2 (getActivePlayer s).token then
          (RoundOutcome.wonRound, ⟨b2, s.players, s.activeIndex⟩)
        else if checkTie b2 then
          (RoundOutcome.tieRound, ⟨b2, s.players, s.activeIndex⟩)
        else
          (RoundOutcome.continuedRound,
            switchPlayerTurn ⟨b2, s.players, s.activeIndex⟩)) := by
      simp only [playRound]
      rw [hdt]
    rw [hred]
    split_ifs with hw htie
    · exact ⟨⟨hinv2, hval2, hidx, hplayers⟩, hframe⟩
    · exact ⟨⟨hinv2, hval2, hidx, hplayers⟩, hframe⟩
    · refine ⟨⟨hinv2, hval2, ?_, hplayers⟩, hframe⟩
      unfold switchPlayerTurn
      rcases hidx with h | h <;> simp [h]

/-- Every state reachable through the public interface satisfies the
invariant. -/
lemma reachableG_invG (s : GameState) (hs : ReachableG s) : InvG s := by
  induction hs with
  | init n1 n2 =>
    exact ⟨inv_gameBoard, (by unfold ValOk; decide : ValOk GameBoard), Or.inl rfl, n1, n2, rfl⟩
  | step s col _ ih => exact (playRound_preserves s col ih).1

/-! ## Claim theorems -/

/-- C1. Win detection (`checkWin`) returns true if and only if the grid
contains four consecutive cells holding the active player's token along one
of the four directions (0,1) horizontal, (1,0) vertical, (1,1)
diagonal-down-right, (1,-1) diagonal-down-left, starting from some cell
holding that token (`hasFourInARow`).  In particular it recognises lines in
all four orientations, and it returns false for every grid whose longest
line of that token is exactly 3 aligned tokens, since such a grid admits no
4-cell window of matching cells and so fails `hasFourInARow`.  Stated for
rectangular grids, where the embedding coincides with the JS source. -/
theorem checkWin_iff_four_in_a_row (board : Board) (token : Nat)
    (_hrect : ∀ row ∈ board, row.length = (board.headD []).length) :
    checkWin board token = true ↔ hasFourInARow board token :=
  checkWin_eq_true_iff board token

/-- A 6×7 grid whose only tokens are a horizontal line of four 1s. -/
def rowWinBoard : Board :=
  [List.replicate 7 0, List.replicate 7 0, List.replicate 7 0,
   List.replicate 7 0, List.replicate 7 0, [1, 1, 1, 1, 0, 0, 0]]

/-- Witness for C1 at a concrete rectangular grid. -/
theorem checkWin_iff_four_in_a_row_witness : hasFourInARow rowWinBoard 1 :=
  (checkWin_iff_four_in_a_row rowWinBoard 1 (by decide)).mp (by decide)

/-- C2. For every board reachable from the fresh board by any sequence of
`dropToken` calls with the player tokens the program uses: (i) within each
column the non-empty cells form a contiguous block anchored at the highest
row index (no empty cell below an occupied one); (ii) each accepted drop
marks exactly the empty cell of greatest row index in the chosen column;
(iii) after N accepted drops into an initially empty column of height 6
(N ≤ 6), exactly the bottom N rows of that column are occupied. -/
theorem reachable_gravity (b : Board) (hb : Reachable b) :
    (∀ c, c < 7 → ∀ r r2, r ≤ r2 → r2 < 6 →
      cellVal b r c ≠ 0 → cellVal b r2 c ≠ 0)
    ∧ (∀ (col : Int) (p : Nat) (b2 : Board),
        dropToken b col p = (DropStatus.placed, b2) →
        ∃ rStar, rStar < 6 ∧ cellVal b rStar col.toNat = 0 ∧
          (∀ r, rStar < r → r < 6 → cellVal b r col.toNat ≠ 0) ∧
          b2 = setCell b rStar col.toNat p)
    ∧ (∀ c : Int, 0 ≤ c → c.toNat < 7 →
        (∀ r, r < 6 → cellVal b r c.toNat = 0) →
        ∀ ps : List Nat, (∀ q ∈ ps, q = 1 ∨ q = 2) → ps.length ≤ 6 →
        ∀ b2, dropSeq b c ps = some b2 →
        ∀ r, r < 6 → (cellVal b2 r c.toNat ≠ 0 ↔ 6 - ps.length ≤ r)) := by
  have hinv := reachable_inv b hb
  refine ⟨?_, ?_, ?_⟩
  · intro c hc r r2 hrr hr2 hnz hz2
    have hg := hinv.2 c hc
    have hcl : (colOf b c).length = 6 := by rw [length_colOf, hinv.1.1]
    rw [cellVal_eq_colOf] at hnz hz2
    have h1 := (hg r2 (by omega)).mp hz2
    have h2 : ¬ r < emptyCountCol (colOf b c) :=
      fun hlt => hnz ((hg r (by omega)).mpr hlt)
    omega
  · intro col p b2 hdrop
    obtain ⟨h0, h7, hne⟩ := dropToken_placed_inversion b col p b2 hinv.1 hdrop
    obtain ⟨n, hcnt, hn6, hdrop2, hcell0, hbelow⟩ :=
      dropToken_placed_master b col p hinv h0 h7 hne
    exact ⟨n, hn6, hcell0, hbelow, congrArg Prod.snd (hdrop.symm.trans hdrop2)⟩
  · intro c h0 h7 hempty ps hps hlen6 b2 hseq r hr
    have hcl : (colOf b c.toNat).length = 6 := by rw [length_colOf, hinv.1.1]
    have hcnt6 : eCount b c.toNat = 6 := by
      unfold eCount
      apply emptyCountCol_of_char _ 6 (by omega)
      intro r2 hr2
      rw [← cellVal_eq_colOf]
      constructor
      · intro _
        omega
      · intro _
        exact hempty r2 (by omega)
    obtain ⟨b3, hseq2, hinv3, hcnt3⟩ := dropSeq_master ps b c hinv h0 h7
      (fun q hq => by rcases hps q hq with rfl | rfl <;> simp)
      (by rw [hcnt6]; exact hlen6)
    rw [hseq2] at hseq
    have hb23 : b2 = b3 := (Option.some_inj.mp hseq).symm
    rw [hb23]
    have hg3 := hinv3.2 c.toNat h7
    have hcl3 : (colOf b3 c.toNat).length = 6 := by rw [length_colOf, hinv3.1.1]
    rw [cellVal_eq_colOf]
    rw [hcnt6] at hcnt3
    unfold eCount at hcnt3
    have hchar := hg3 r (by omega)
    rw [hcnt3] at hchar
    rw [ne_eq, hchar]
    exact Nat.not_lt

/-- The board after four accepted drops with tokens 1,2,1,2 into column 0 of
the fresh board. -/
def fourDropsBoard : Board :=
  [List.replicate 7 0, List.replicate 7 0,
   2 :: List.replicate 6 0, 1 :: List.replicate 6 0,
   2 :: List.replicate 6 0, 1 :: List.replicate 6 0]

/-- Witness for C2: after four accepted drops into empty column 0 the bottom
four rows are occupied; in particular row 2 is occupied. -/
theorem reachable_gravity_witness :
    cellVal fourDropsBoard 2 0 ≠ 0 ↔ 6 - ([1, 2, 1, 2] : List Nat).length ≤ 2 :=
  (reachable_gravity GameBoard Reachable.init).2.2 0 (by decide) (by decide)
    (by decide) [1, 2, 1, 2] (by decide) (by decide) fourDropsBoard (by decide)
    2 (by decide)

/-- The match state reached from a fresh default controller by six
`playRound(0)` calls: column 0 is full (tokens 1,2,1,2,1,2 bottom-up, no
4-in-a-row) and the turn is back with player one. -/
def sixRoundsState : GameState :=
  (playRound (playRound (playRound (playRound (playRound (playRound
    initialGame 0).2 0).2 0).2 0).2 0).2 0).2

/-- C3 (code bug).  A seventh `playRound(0)` call is a rejected drop (column
0 is full) and changes no cell, there is no win and no tie on the unchanged
grid — yet the active player toggles from player one (index 0) to player two
(index 1): `playRound` never inspects the result of `dropToken` before
calling `switchPlayerTurn`, contradicting the claim (and the spec) that a
rejected move leaves the active player unchanged. -/
theorem playRound_rejected_still_switches :
    sixRoundsState.activeIndex = 0 ∧
    (dropToken sixRoundsState.board 0 (getActivePlayer sixRoundsState).token).1 =
      DropStatus.rejected ∧
    (playRound sixRoundsState 0).2.board = sixRoundsState.board ∧
    (playRound sixRoundsState 0).1 = RoundOutcome.continuedRound ∧
    (playRound sixRoundsState 0).2.activeIndex = 1 := by decide

/-- C4 (counterexample).  Dropping into column 7 or −1 of the default board
does not return normally: the filter callback evaluates
`row[column].getValue()` with `row[column]` undefined and throws a
TypeError, embedded as `DropStatus.typeError`, distinct from the
normal-return rejection path the claim asserts. -/
theorem dropToken_out_of_range_throws :
    (dropToken GameBoard 7 1).1 = DropStatus.typeError ∧
    (dropToken GameBoard (-1) 1).1 = DropStatus.typeError ∧
    DropStatus.typeError ≠ DropStatus.rejected := by decide

/-- C4 (amended).  For every 6×7 grid and every column index outside
[0, 7), `dropToken` throws a TypeError (it does not return normally); the
throw happens inside the filter callback before any mutation, so every cell
of the grid is left unchanged. -/
theorem dropToken_out_of_range_typeError (b : Board) (col : Int) (p : Nat)
    (hs : Shape b) (hout : col < 0 ∨ 7 ≤ col) :
    dropToken b col p = (DropStatus.typeError, b) := by
  obtain ⟨hlen, hrows⟩ := hs
  obtain ⟨row, rest, rfl⟩ : ∃ row rest, b = row :: rest := by
    cases b with
    | nil => simp at hlen
    | cons row rest => exact ⟨row, rest, rfl⟩
  have h7 : row.length = 7 := hrows row (List.mem_cons_self row rest)
  apply dropToken_out_of_range _ col p (by simp)
  simp only [List.headD_cons]
  rw [h7]
  rcases hout with h | h
  · exact Or.inl h
  · exact Or.inr (by exact_mod_cast h)

/-- Witness for C4 on the fresh board and column 7. -/
theorem dropToken_out_of_range_typeError_witness :
    dropToken GameBoard 7 1 = (DropStatus.typeError, GameBoard) :=
  dropToken_out_of_range_typeError GameBoard 7 1 ⟨rfl, by decide⟩ (by decide)

/-- C5. Tie detection (`checkTie`) returns true if and only if the grid
contains zero empty cells; and `playRound` evaluates it only after win
detection has returned false: for every match state whose 6×7 grid is
simultaneously full and contains a 4-in-a-row of the active player's token,
`playRound` never reports a tie, and for every in-range column it reports
the win. -/
theorem checkTie_iff_and_win_precedence :
    (∀ board : Board, (checkTie board = true ↔
      ∀ r, r < board.length → ∀ c, c < (board.headD []).length →
        cellVal board r c ≠ 0))
    ∧ (∀ (s : GameState) (col : Int),
        Shape s.board →
        (∀ r, r < 6 → ∀ c, c < 7 → cellVal s.board r c ≠ 0) →
        hasFourInARow s.board (getActivePlayer s).token →
        (playRound s col).1 ≠ RoundOutcome.tieRound ∧
        (0 ≤ col → col.toNat < 7 →
          (playRound s col).1 = RoundOutcome.wonRound)) := by
  constructor
  · exact checkTie_eq_true_iff
  · intro s col hs hfull hfour
    have hwin : checkWin s.board (getActivePlayer s).token = true :=
      (checkWin_eq_true_iff _ _).mpr hfour
    obtain ⟨hlen, hrows⟩ := hs
    by_cases h0 : 0 ≤ col
    · by_cases h7 : col.toNat < 7
      · have hcnt : s.board.countP
            (fun row => decide (row.getD col.toNat 0 = 0)) = 0 := by
          rw [List.countP_eq_zero]
          intro row hrow
          obtain ⟨r, hrb, hrowr⟩ := List.getElem_of_mem hrow
          have : row.getD col.toNat 0 = cellVal s.board r col.toNat := by
            unfold cellVal
            rw [List.getD_eq_getElem _ _ hrb, hrowr]
          simp only [decide_eq_true_eq, this]
          exact hfull r (by omega) col.toNat h7
        have hdrop := dropToken_rejected_of_count_zero s.board col
          (getActivePlayer s).token h0
          (fun row hrow => by rw [hrows row hrow]; exact h7) hcnt
        have hpr : playRound s col =
            (RoundOutcome.wonRound, ⟨s.board, s.players, s.activeIndex⟩) := by
          simp only [playRound]
          rw [hdrop]
          simp only [hwin, if_true]
        rw [hpr]
        exact ⟨fun h => RoundOutcome.noConfusion h, fun _ _ => rfl⟩
      · have hdrop : dropToken s.board col (getActivePlayer s).token =
            (DropStatus.typeError, s.board) := by
          obtain ⟨row, rest, hb⟩ : ∃ row rest, s.board = row :: rest := by
            cases hbb : s.board with
            | nil => rw [hbb] at hlen; simp at hlen
            | cons row rest => exact ⟨row, rest, rfl⟩
          apply dropToken_out_of_range _ col _ (by rw [hb]; simp)
          right
          rw [hb]
          simp only [List.headD_cons]
          rw [hrows row (by rw [hb]; exact List.mem_cons_self row rest)]
          omega
        have hpr : playRound s col = (RoundOutcome.crashedRound, s) := by
          simp only [playRound]
          rw [hdrop]
        rw [hpr]
        exact ⟨fun h => RoundOutcome.noConfusion h, fun _ h7x => absurd h7x h7⟩
    · have hdrop : dropToken s.board col (getActivePlayer s).token =
          (DropStatus.typeError, s.board) := by
        obtain ⟨row, rest, hb⟩ : ∃ row rest, s.board = row :: rest := by
          cases hbb : s.board with
          | nil => rw [hbb] at hlen; simp at hlen
          | cons row rest => exact ⟨row, rest, rfl⟩
        apply dropToken_out_of_range _ col _ (by rw [hb]; simp)
        left
        omega
      have hpr : playRound s col = (RoundOutcome.crashedRound, s) := by
        simp only [playRound]
        rw [hdrop]
      rw [hpr]
      exact ⟨fun h => RoundOutcome.noConfusion h, fun h0x _ => absurd h0x h0⟩

/-- A full 6×7 grid containing a horizontal 4-in-a-row of token 1 at
row 5, columns 0-3. -/
def fullWinBoard : Board :=
  [[2, 2, 1, 1, 2, 2, 1], [1, 1, 2, 2, 1, 1, 2], [2, 2, 1, 1, 2, 2, 1],
   [1, 1, 2, 2, 1, 1, 2], [2, 2, 1, 1, 2, 2, 1], [1, 1, 1, 1, 2, 2, 2]]

/-- A match state over the full winning board with player one active. -/
def fullWinState : GameState :=
  ⟨fullWinBoard, makePlayers "Player One" "Player Two", 0⟩

/-- Witness for C5: on a grid that is simultaneously full and winning for
the active player, `playRound` reports the win, never the tie. -/
theorem checkTie_iff_and_win_precedence_witness :
    (playRound fullWinState 0).1 ≠ RoundOutcome.tieRound ∧
    (0 ≤ (0 : Int) → (0 : Int).toNat < 7 →
      (playRound fullWinState 0).1 = RoundOutcome.wonRound) :=
  checkTie_iff_and_win_precedence.2 fullWinState 0 ⟨rfl, by decide⟩ (by decide)
    ⟨5, 0, (0, 1), by decide, by decide, by decide, by decide, by decide⟩

/-- C6. For every grid in which a valid (in-range) column holds no empty
cell, `dropToken` into that column is rejected and returns with every cell
of the grid exactly as it was. -/
theorem dropToken_full_column_rejected (b : Board) (col : Int) (p : Nat)
    (h0 : 0 ≤ col) (hlt : ∀ row ∈ b, col.toNat < row.length)
    (hfull : ∀ row ∈ b, row.getD col.toNat 0 ≠ 0) :
    dropToken b col p = (DropStatus.rejected, b) := by
  apply dropToken_rejected_of_count_zero b col p h0 hlt
  rw [List.countP_eq_zero]
  intro row hrow
  simpa using hfull row hrow

/-- A 6×7 board whose column 0 is full (six tokens) and otherwise empty. -/
def fullColumnBoard : Board :=
  [1 :: List.replicate 6 0, 2 :: List.replicate 6 0, 1 :: List.replicate 6 0,
   2 :: List.replicate 6 0, 1 :: List.replicate 6 0, 2 :: List.replicate 6 0]

/-- Witness for C6: dropping into the full column 0 is rejected and leaves
the grid unchanged. -/
theorem dropToken_full_column_rejected_witness :
    dropToken fullColumnBoard 0 1 = (DropStatus.rejected, fullColumnBoard) :=
  dropToken_full_column_rejected fullColumnBoard 0 1 (by decide) (by decide)
    (by decide)

/-- C7. A newly constructed match with the default arguments has a grid of
exactly 6 rows × 7 columns with every cell empty (0), the two fixed players
"Player One" (token 1) and "Player Two" (token 2), and player one active. -/
theorem initial_state_spec :
    initialGame.board.length = 6 ∧
    (∀ row ∈ initialGame.board, row.length = 7) ∧
    (∀ r, r < 6 → ∀ c, c < 7 → cellVal initialGame.board r c = 0) ∧
    initialGame.players = [⟨"Player One", 1⟩, ⟨"Player Two", 2⟩] ∧
    getActivePlayer initialGame = ⟨"Player One", 1⟩ ∧
    initialGame.activeIndex = 0 :=
  ⟨rfl, by decide, by decide, rfl, rfl, rfl⟩

/-- C9. In every match state reachable through the public interface
(`GameController` then any sequence of `playRound` calls) every cell value
is 0, 1 or 2, and no `playRound` call ever changes a non-empty cell: once a
cell holds a token it keeps it forever — the interface only writes the
active player's token (1 or 2) into a previously empty cell. -/
theorem cells_token_valued_and_never_revert (s : GameState) (hs : ReachableG s) :
    (∀ r, r < 6 → ∀ c, c < 7 →
      cellVal s.board r c = 0 ∨ cellVal s.board r c = 1 ∨ cellVal s.board r c = 2)
    ∧ (∀ (col : Int) (r c : Nat), r < 6 → c < 7 → cellVal s.board r c ≠ 0 →
        cellVal (playRound s col).2.board r c = cellVal s.board r c) := by
  have hG := reachableG_invG s hs
  exact ⟨hG.2.1,
    fun col r c hr hc hnz => (playRound_preserves s col hG).2 r c hr hc hnz⟩

/-- Witness for C9: the token placed at (5,0) by the first round survives
the next round unchanged. -/
theorem cells_token_valued_and_never_revert_witness :
    cellVal (playRound (playRound initialGame 0).2 3).2.board 5 0 =
      cellVal (playRound initialGame 0).2.board 5 0 :=
  (cells_token_valued_and_never_revert (playRound initialGame 0).2
    (ReachableG.step initialGame 0
      (ReachableG.init "Player One" "Player Two"))).2
    3 5 0 (by decide) (by decide) (by decide)

/-- A 6×7 board violating the gravity invariant: column 0 holds token 1 at
row 4 while row 5 below it is empty. -/
def floatingBoard : Board :=
  [List.replicate 7 0, List.replicate 7 0, List.replicate 7 0,
   List.replicate 7 0, 1 :: List.replicate 6 0, List.replicate 7 0]

/-- C10 (counterexample).  On this invariant-violating grid state the
accepted drop into valid non-full column 0 does not change the single
lowest empty cell (row 5 stays empty) and does not change a cell from 0:
it overwrites the occupied cell (4,0), changing it from 1 to 2, because the
source writes to row `availableCells.length - 1`, which is the lowest empty
row only when the gravity invariant holds. -/
theorem dropToken_overwrites_on_floating_board :
    (dropToken floatingBoard 0 2).1 = DropStatus.placed ∧
    cellVal floatingBoard 5 0 = 0 ∧
    cellVal (dropToken floatingBoard 0 2).2 5 0 = 0 ∧
    cellVal floatingBoard 4 0 = 1 ∧
    cellVal (dropToken floatingBoard 0 2).2 4 0 = 2 := by decide

/-- C10 (amended).  For every grid state satisfying the gravity invariant —
which by C2 covers every state the program can put the grid in — and every
valid non-full column, the accepted `dropToken` changes the single lowest
empty cell of that column from 0 to the player token and leaves every other
cell, and the grid's 6×7 shape, unchanged. -/
theorem dropToken_single_cell_frame (b : Board) (col : Int) (p : Nat)
    (hinv : Inv b) (h0 : 0 ≤ col) (h7 : col.toNat < 7)
    (hnonfull : ∃ r, r < 6 ∧ cellVal b r col.toNat = 0) :
    ∃ rStar, rStar < 6 ∧ cellVal b rStar col.toNat = 0 ∧
      (∀ r, rStar < r → r < 6 → cellVal b r col.toNat ≠ 0) ∧
      (dropToken b col p).1 = DropStatus.placed ∧
      cellVal (dropToken b col p).2 rStar col.toNat = p ∧
      (∀ r c, r < 6 → c < 7 → (r ≠ rStar ∨ c ≠ col.toNat) →
        cellVal (dropToken b col p).2 r c = cellVal b r c) ∧
      (dropToken b col p).2.length = 6 ∧
      (∀ row ∈ (dropToken b col p).2, row.length = 7) := by
  have hne : eCount b col.toNat ≠ 0 := by
    obtain ⟨r, hr, hz⟩ := hnonfull
    have hg := hinv.2 col.toNat h7
    rw [cellVal_eq_colOf] at hz
    have hcl : (colOf b col.toNat).length = 6 := by rw [length_colOf, hinv.1.1]
    have := (hg r (by omega)).mp hz
    unfold eCount
    omega
  obtain ⟨n, hcnt, hn6, hdrop2, hcell0, hbelow⟩ :=
    dropToken_placed_master b col p hinv h0 h7 hne
  have hnb : n < b.length := by
    have := hinv.1.1
    omega
  refine ⟨n, hn6, hcell0, hbelow, ?_, ?_, ?_, ?_, ?_⟩
  · rw [hdrop2]
  · rw [hdrop2]
    exact cellVal_setCell_self6 b n col.toNat p hinv.1 hn6 h7
  · intro r c hr hc hrc
    rw [hdrop2]
    exact cellVal_setCell_ne b n col.toNat p r c hrc
  · rw [hdrop2]
    exact (shape_setCell b n col.toNat p hinv.1 hnb).1
  · rw [hdrop2]
    exact (shape_setCell b n col.toNat p hinv.1 hnb).2

/-- Witness for C10 on the fresh board, column 0, token 1. -/
theorem dropToken_single_cell_frame_witness :
    ∃ rStar, rStar < 6 ∧ cellVal GameBoard rStar 0 = 0 ∧
      (∀ r, rStar < r → r < 6 → cellVal GameBoard r 0 ≠ 0) ∧
      (dropToken GameBoard 0 1).1 = DropStatus.placed ∧
      cellVal (dropToken GameBoard 0 1).2 rStar 0 = 1 ∧
      (∀ r c, r < 6 → c < 7 → (r ≠ rStar ∨ c ≠ 0) →
        cellVal (dropToken GameBoard 0 1).2 r c = cellVal GameBoard r c) ∧
      (dropToken GameBoard 0 1).2.length = 6 ∧
      (∀ row ∈ (dropToken GameBoard 0 1).2, row.length = 7) :=
  dropToken_single_cell_frame GameBoard 0 1 inv_gameBoard (by decide) (by decide)
    ⟨5, by decide, by decide⟩

end ConnectFour
